import Mathlib

/-!
Shallow embedding of `docs/generate_catalog.py` (PlusToolkit/PlusModelCatalog).

Paths are modelled as repo-root-relative strings (`repo_root / f` followed by
`relative_to(repo_root)` is the identity under this convention).  The
filesystem, the git-provenance collaborator and the render collaborator are
modelled by an environment record; the render cache directory and the log of
render invocations are explicit state threaded through the functions, so that
cache writes and Render-Bridge calls are observable.
-/

namespace Catalog

/-- Index of the last `'.'` in a character list (Python `str.rfind('.')`,
restricted to the found case). -/
def lastDotIdx : List Char → Option Nat
  | [] => none
  | c :: rest =>
    match lastDotIdx rest with
    | some i => some (i + 1)
    | none => if c = '.' then some 0 else none

/-- Python `pathlib.PurePath.suffix` of a final path component: the part of
`name` from its last dot, provided `0 < i < len(name) - 1`; otherwise `""`. -/
def pySuffix (name : String) : String :=
  let cs := name.toList
  match lastDotIdx cs with
  | some i => if 0 < i && i + 1 < cs.length then String.mk (cs.drop i) else ""
  | none => ""

/-- Python `pathlib.PurePath.stem` of a final path component: `name` up to its
last dot, provided `0 < i < len(name) - 1`; otherwise `name` itself. -/
def pyStem (name : String) : String :=
  let cs := name.toList
  match lastDotIdx cs with
  | some i => if 0 < i && i + 1 < cs.length then String.mk (cs.take i) else name
  | none => name

/-- Split a character list at every `'/'` (Python `str.split('/')`). -/
def splitSlash : List Char → List (List Char)
  | [] => [[]]
  | c :: rest =>
    let r := splitSlash rest
    if c = '/' then [] :: r
    else
      match r with
      | h :: t => (c :: h) :: t
      | [] => [[c]]

/-- Join components with `'/'` (inverse of `splitSlash`). -/
def joinSlash : List (List Char) → List Char
  | [] => []
  | [x] => x
  | x :: xs => x ++ '/' :: joinSlash xs

/-- Python `Path.name`: the final component of a `/`-separated path. -/
def fileName (p : String) : String :=
  String.mk ((splitSlash p.toList).getLastD [])

/-- Python `Path.stem` of a path. -/
def stemOf (p : String) : String := pyStem (fileName p)

/-- Python `str(Path.parent)`: the path without its final component, `"."`
when there is none. -/
def parentStr (p : String) : String :=
  let comps := (splitSlash p.toList).dropLast
  if comps.isEmpty then "." else String.mk (joinSlash comps)

/-- Boolean list-prefix test. -/
def isPrefB : List Char → List Char → Bool
  | [], _ => true
  | _ :: _, [] => false
  | a :: as, b :: bs => a == b && isPrefB as bs

/-- Does string `s` start with `pat`? -/
def startsWithB (s pat : String) : Bool := isPrefB pat.toList s.toList

/-- Does string `s` end with `pat`? -/
def endsWithB (s pat : String) : Bool :=
  isPrefB pat.toList.reverse s.toList.reverse

/-- Lowercase a string character by character (Python `str.lower`, ASCII
range as in `Char.toLower`). -/
def lowerStr (s : String) : String := String.mk (s.toList.map Char.toLower)

/-- Code-point lexicographic comparison of character lists: Python's string
`<=`. -/
def charListLeB : List Char → List Char → Bool
  | [], _ => true
  | _ :: _, [] => false
  | a :: as, b :: bs =>
    if a.toNat < b.toNat then true
    else if b.toNat < a.toNat then false
    else charListLeB as bs

/-- Python string `<=` as a Boolean. -/
def strLeB (a b : String) : Bool := charListLeB a.toList b.toList

/-- Provenance of a file sitting in the render cache directory. -/
inductive CacheEntry : Type
  | rendered (src : String)
  | copiedFrom (src : String)
deriving DecidableEq, Repr

/-- The environment: repository files on disk, the git collaborator
(`get_git_last_modified`, already collapsed to date-or-"Unknown"), the render
collaborator's success or failure per model file, and the configured GitHub
base URL. -/
structure Env : Type where
  repoFiles : List String
  gitDate : String → String
  renderOk : String → Bool
  baseUrl : String

/-- Mutable state of a run: the render cache directory (filename ↦ content
provenance) and the ordered log of Render-Bridge invocations. -/
structure St : Type where
  cache : List (String × CacheEntry)
  renders : List String
deriving Repr

/-- Look a filename up in the cache directory. -/
def cacheLookup (c : List (String × CacheEntry)) (k : String) : Option CacheEntry :=
  (c.find? (fun kv => kv.1 == k)).map (·.2)

/-- Existence test for a cache file (`image_path.exists()`). -/
def cacheHas (c : List (String × CacheEntry)) (k : String) : Bool :=
  (cacheLookup c k).isSome

/-- Create or overwrite a cache file (file-system write semantics): replace
the entry at key `k` when one is present, append a fresh entry otherwise. -/
def cacheSet : List (String × CacheEntry) → String → CacheEntry →
    List (String × CacheEntry)
  | [], k, v => [(k, v)]
  | kv :: rest, k, v =>
    if kv.1 == k then (k, v) :: rest else kv :: cacheSet rest k v

/-- Embeds `render_stl` (lines 41–49): the invocation is logged, and on
success the output file appears in the cache; on failure no file is written
and the exception is swallowed. -/
def render_stl (env : Env) (stl_path : String) (output_key : String) (st : St) :
    Bool × St :=
  let st := { st with renders := st.renders ++ [stl_path] }
  if env.renderOk stl_path then
    (true, { st with cache := cacheSet st.cache output_key (.rendered stl_path) })
  else
    (false, st)

/-- Embeds `get_git_last_modified` (lines 24–39) as the collaborator oracle. -/
def get_git_last_modified (env : Env) (p : String) : String := env.gitDate p

/-- A download record of a catalog entry. -/
structure Download : Type where
  filename : String
  url : String
  last_modified : String
deriving DecidableEq, Repr

/-- A resolved catalog entry (the dict built by `generate_model_entry`). -/
structure Entry : Type where
  id : String
  description : String
  image : String
  downloads : List Download
  source_url : String
deriving DecidableEq, Repr

/-- The download dict built for one file inside `generate_model_entry`
(lines 122–128). -/
def mkDownload (env : Env) (f : String) : Download :=
  { filename := fileName f
    url := env.baseUrl ++ "/blob/master/" ++ f ++ "?raw=true"
    last_modified := get_git_last_modified env f }

/-- Embeds `generate_model_entry` (lines 99–136): derive the id from the
primary file's stem, render the preview into the cache unless the cache file
already exists, and build the entry with its downloads (primary first, then
the additional files in order).  The dead local `last_modified` of line 114
has no effect and is omitted. -/
def generate_model_entry (env : Env) (stl_file : String) (description : String)
    (additional_files : Option (List String)) (st : St) : Entry × St :=
  let model_id := stemOf stl_file
  let image_filename := model_id ++ ".png"
  let st := if cacheHas st.cache image_filename then st
            else (render_stl env stl_file image_filename st).2
  let download_files := stl_file :: additional_files.getD []
  let downloads := download_files.map (mkDownload env)
  ({ id := model_id
     description := description
     image := "/_static/rendered/" ++ image_filename
     downloads := downloads
     source_url := env.baseUrl ++ "/tree/master/" ++ parentStr stl_file },
   st)

/-- Insert into a sorted list of paths (auxiliary for `pySorted`). -/
def insertLe (x : String) : List String → List String
  | [] => [x]
  | y :: ys => if strLeB x y then x :: y :: ys else y :: insertLe x ys

/-- Python's `sorted` applied to a list of paths: paths compare by their full
string (POSIX `_str_normcase`), so this is lexicographic string sorting.
Sorting is modelled by insertion sort; since string order is total and equal
strings are literally equal, every correct sort returns this same list. -/
def pySorted : List String → List String
  | [] => []
  | x :: xs => insertLe x (pySorted xs)

/-- One `glob` call of `find_stl_files` line 74/76: the repository files under
`directory` (direct children only when not recursive) whose name matches
`*.<pat>` — glob is case-sensitive, so the extension must match exactly. -/
def globFiles (env : Env) (directory : String) (recursive : Bool) (pat : String) :
    List String :=
  env.repoFiles.filter (fun p =>
    startsWithB p (directory ++ "/") &&
    (recursive || (splitSlash (p.toList.drop (directory.toList.length + 1))).length == 1) &&
    endsWithB p pat)

/-- The de-duplication loop of `find_stl_files` lines 79–85: keep the first
occurrence of each path, preserving order (`seen` is the Python set). -/
def dedupe (seen : List String) : List String → List String
  | [] => []
  | f :: rest =>
    if seen.contains f then dedupe seen rest
    else f :: dedupe (f :: seen) rest

/-- Embeds `find_stl_files` (lines 51–97): glob both `*.stl` and `*.STL`,
sort, de-duplicate, then apply the include and exclude filename filters.
`Option` plus an emptiness test models Python's truthiness of `None`/`[]`. -/
def find_stl_files (env : Env) (directory : String) (recursive : Bool)
    (includeL : Option (List String)) (exclude : Option (List String)) :
    List String :=
  let all_files := pySorted
    (globFiles env directory recursive ".stl" ++ globFiles env directory recursive ".STL")
  let all_files := dedupe [] all_files
  let all_files :=
    if !(includeL.getD []).isEmpty then
      all_files.filter (fun f => (includeL.getD []).contains (fileName f))
    else all_files
  let all_files :=
    if !(exclude.getD []).isEmpty then
      all_files.filter (fun f => !(exclude.getD []).contains (fileName f))
    else all_files
  all_files

/-- A model definition: one item of the `model_definitions` dict, in
insertion order.  `files` is `none` when the `'files'` key is absent;
`image` is `none` when the `'image'` key is absent. -/
structure Defn : Type where
  id : String
  description : String
  files : Option (List String)
  image : Option String
deriving DecidableEq, Repr

/-- Test of `fp.suffix.lower() in ['.stl']` (line 238). -/
def isStlB (f : String) : Bool := lowerStr (pySuffix (fileName f)) == ".stl"

/-- One iteration of the primary/additional partition loop
(lines 237–245): an `.stl` file becomes the primary when none is chosen yet,
otherwise it is appended to the additional files; non-`.stl` files are always
additional. -/
def splitStep (acc : Option String × List String) (fp : String) :
    Option String × List String :=
  if isStlB fp then
    match acc.1 with
    | none => (some fp, acc.2)
    | some p => (some p, acc.2 ++ [fp])
  else (acc.1, acc.2 ++ [fp])

/-- The primary/additional partition loop of `generate_catalog_page`
lines 235–245: the first file whose lowercased extension is `.stl` becomes
the primary; every other file, in original order, is additional. -/
def splitPrimary (files : List String) : Option String × List String :=
  files.foldl splitStep (none, [])

/-- File-existence test against the repository (`Path.exists`). -/
def fileExists (env : Env) (p : String) : Bool := env.repoFiles.contains p

/-- The body of the first loop of `generate_catalog_page` (lines 228–264) for
one definition: definitions without `files` contribute nothing here; with
`files`, pick the primary, skip silently if it is missing, otherwise build the
entry, copy a custom image over the id-keyed cache file when one is given and
exists (`shutil.copy`, line 260), and finally override the entry id. -/
def processDef (env : Env) (d : Defn) (st : St) : Option Entry × St :=
  match d.files with
  | none => (none, st)
  | some fls =>
    match (splitPrimary fls).1 with
    | none => (none, st)
    | some primary_file =>
      if fileExists env primary_file then
        let est := generate_model_entry env primary_file d.description
          (if (splitPrimary fls).2.isEmpty then none
           else some (splitPrimary fls).2) st
        let est2 :=
          match d.image with
          | some img =>
            if fileExists env img then
              ({ est.1 with image := "/_static/rendered/" ++ (d.id ++ ".png") },
               { est.2 with
                  cache := cacheSet est.2.cache (d.id ++ ".png") (.copiedFrom img) })
            else est
          | none => est
        (some { est2.1 with id := d.id }, est2.2)
      else (none, st)

/-- One definition's contribution to the `specified_files` set of
lines 219–225: the basenames of its `files` entries, when it has any. -/
def specStep (acc : List String) (d : Defn) : List String :=
  match d.files with
  | some fls => acc ++ fls.map fileName
  | none => acc

/-- The `specified_files` set built by lines 219–225, in insertion order:
the basename of every file of every definition that carries a `files` list.
These same strings are appended, in the same order, to the local
`exclude_files` list. -/
def collectSpecified (defs : List Defn) : List String :=
  defs.foldl specStep []

/-- Description chosen for an auto-discovered file (lines 269–274): the
definition with the file's stem as key contributes its description only when
it has no `files` list. -/
def autoDescription (defs : List Defn) (stl_file : String) : String :=
  match defs.find? (fun d => d.id == stemOf stl_file) with
  | some d => if d.files == none then d.description else ""
  | none => ""

/-- The body of the downloads loop of `generate_table_markdown`
(lines 165–169): filename and link, then the `(Modified: …)` suffix exactly
when `dl['last_modified']` is truthy, that is a non-empty string, then a
newline. -/
def downloadLine (dl : Download) : String :=
  "- [" ++ dl.filename ++ "](" ++ dl.url ++ ") " ++
  (if dl.last_modified ≠ "" then "*(Modified: " ++ dl.last_modified ++ ")*" else "") ++
  "\n"

/-- The accumulated downloads section: the inner loop of lines 165–169. -/
def downloadsSection (dls : List Download) : String :=
  dls.foldl (fun md dl => md ++ downloadLine dl) ""

/-- The block emitted for one model by the loop body of
`generate_table_markdown` (lines 148–173), as one concatenation of the
successive `md +=` pieces. -/
def modelBlock (model : Entry) : String :=
  "### " ++ model.id ++ "\n\n" ++
  "::::\x7bgrid\x7d 1 1 2 2\n" ++
  ":gutter: 3\n\n" ++
  ":::\x7bgrid-item\x7d\n" ++
  "![" ++ model.id ++ "](" ++ model.image ++ ")\n" ++
  ":::\n\n" ++
  ":::\x7bgrid-item\x7d\n" ++
  (if model.description ≠ "" then model.description ++ "\n\n" else "") ++
  "**Downloads:**\n\n" ++
  downloadsSection model.downloads ++
  "\n[View source files on GitHub](" ++ model.source_url ++ ")\n" ++
  ":::\n\n" ++
  "::::\n\n"

/-- Embeds `generate_table_markdown` (lines 138–178): header, then one block
per model; after each block the `---` separator is appended when
`model != models[-1]`, a comparison of the model dict by value against the
final list element. -/
def generate_table_markdown (models : List Entry) (title : String)
    (description : String) : String :=
  let md := "# " ++ title ++ "\n\n"
  let md := if description ≠ "" then md ++ description ++ "\n\n" else md
  let md := md ++ "## Models\n\n"
  models.foldl
    (fun md model =>
      md ++ modelBlock model ++
      (if models.getLast? = some model then "" else "---\n\n"))
    md

/-- Result of one `generate_catalog_page` run: the resolved entries, the
emitted markdown, the final cache/render state, and the final contents of the
function's local `exclude_files` list. -/
structure PageResult : Type where
  models : List Entry
  markdown : String
  st : St
  exclude_final : List String
deriving Repr

/-- One iteration of the definitions loop of `generate_catalog_page`
(lines 228–264): append the resolved entry when the definition produced one,
threading the cache state either way. -/
def defLoopStep (env : Env) (acc : List Entry × St) (d : Defn) :
    List Entry × St :=
  match processDef env d acc.2 with
  | (some e, st') => (acc.1 ++ [e], st')
  | (none, st') => (acc.1, st')

/-- One iteration of the auto-discovery loop of `generate_catalog_page`
(lines 267–275): skip files whose name is in `specified_files`, otherwise
append the entry generated for the file. -/
def discLoopStep (env : Env) (defs : List Defn) (specified_files : List String)
    (acc : List Entry × St) (f : String) : List Entry × St :=
  if specified_files.contains (fileName f) then acc
  else
    let est := generate_model_entry env f (autoDescription defs f) none acc.2
    (acc.1 ++ [est.1], est.2)

/-- Embeds `generate_catalog_page` (lines 180–282).  `exclude_files or []`
is the `Option.getD`; the reservation loop (219–225) fills `specified_files`
and appends the same basenames to the local `exclude_files` list; the first
loop resolves the explicit definitions in declaration order; the second loop
appends entries for the discovered files that are not specified.  Writing the
markdown file to disk is modelled by returning the markdown text. -/
def generate_catalog_page (env : Env) (directory : String) (title : String)
    (description : String) (defs : List Defn)
    (exclude_files : Option (List String)) (st : St) : PageResult :=
  let ex0 := exclude_files.getD []
  let specified_files := collectSpecified defs
  let exclude_local := ex0 ++ specified_files
  let ms1 := defs.foldl (defLoopStep env) ([], st)
  let discovered := find_stl_files env directory true none (some exclude_local)
  let ms2 := discovered.foldl (discLoopStep env defs specified_files) ms1
  { models := ms2.1
    markdown := generate_table_markdown ms2.1 title description
    st := ms2.2
    exclude_final := exclude_local }

/-- Contents of the caller's `exclude_files` list after a
`generate_catalog_page` call.  Line 216 (`exclude_files = exclude_files or []`)
keeps the caller's very list object exactly when the passed list is truthy
(non-empty); only then do the `append` calls of line 225 land in the caller's
list.  An empty (or absent) argument makes the function work on a fresh list
the caller never sees. -/
def exclude_files_after_call (env : Env) (directory : String) (title : String)
    (description : String) (defs : List Defn) (init : List String) (st : St) :
    List String :=
  if init.isEmpty then init
  else (generate_catalog_page env directory title description defs (some init) st
       ).exclude_final

/-- The entry a definition resolves to, independent of cache state (used to
characterise the first loop of `generate_catalog_page`). -/
def entryForDef (env : Env) (d : Defn) : Option Entry :=
  (processDef env d ⟨[], []⟩).1

/-- The entry an auto-discovered file resolves to, independent of cache state
(used to characterise the second loop of `generate_catalog_page`). -/
def autoEntry (env : Env) (defs : List Defn) (f : String) : Entry :=
  (generate_model_entry env f (autoDescription defs f) none ⟨[], []⟩).1

/-- The files the second loop of `generate_catalog_page` builds entries for:
the discovery result under the accumulated exclusion list, restricted by the
`stl_file.name not in specified_files` guard of line 268. -/
def discoveredFiles (env : Env) (directory : String) (defs : List Defn)
    (exclude_files : Option (List String)) : List String :=
  (find_stl_files env directory true none
      (some (exclude_files.getD [] ++ collectSpecified defs))).filter
    (fun f => !(collectSpecified defs).contains (fileName f))

/-- Does the definition carry a custom image that exists on disk (the guard
of lines 255–257)? -/
def customImageUsed (env : Env) (d : Defn) : Bool :=
  match d.image with
  | some img => fileExists env img
  | none => false

/-- Concatenation of a list of strings (spec-side notation for the emitter
grammar). -/
def strConcat : List String → String
  | [] => ""
  | s :: rest => s ++ strConcat rest

/-- Join blocks with a separator exactly between consecutive blocks and never
after the last (the spec's separator grammar). -/
def sepJoin (sep : String) : List String → String
  | [] => ""
  | [s] => s
  | s :: rest => s ++ sep ++ sepJoin sep rest

/-- The spec's description of the emitter's separator placement: identical to
`generate_table_markdown` except that the `---` separator is placed purely by
position, between consecutive entry blocks and never after the last. -/
def table_markdown_separator_spec (models : List Entry) (title : String)
    (description : String) : String :=
  let md := "# " ++ title ++ "\n\n"
  let md := if description ≠ "" then md ++ description ++ "\n\n" else md
  let md := md ++ "## Models\n\n"
  md ++ sepJoin "---\n\n" (models.map modelBlock)

/-- A small repository used by concrete witnesses: one specified model file
and one loose model file. -/
def sampleEnv : Env :=
  { repoFiles := ["T/a.stl", "T/b.stl"]
    gitDate := fun _ => "2024-01-01"
    renderOk := fun _ => true
    baseUrl := "B" }

/-- A single model definition claiming `T/a.stl`, used by concrete
witnesses. -/
def sampleDefs : List Defn := [⟨"A", "da", some ["T/a.stl"], none⟩]

/-! ## Helper lemmas -/

lemma foldl_splitStep_some (l : List String) (p : String) :
    ∀ a : List String, l.foldl splitStep (some p, a) = (some p, a ++ l) := by
  induction l with
  | nil => intro a; simp
  | cons f rest ih =>
    intro a
    by_cases h : isStlB f <;>
      simp [splitStep, h, ih]

lemma foldl_splitStep_none (l : List String) :
    ∀ a : List String,
      l.foldl splitStep (none, a) = ((splitPrimary l).1, a ++ (splitPrimary l).2) := by
  induction l with
  | nil => intro a; simp [splitPrimary]
  | cons f rest ih =>
    intro a
    by_cases h : isStlB f
    · have h1 : splitStep (none, a) f = (some f, a) := by simp [splitStep, h]
      have h2 : splitStep (none, []) f = (some f, []) := by simp [splitStep, h]
      simp only [splitPrimary, List.foldl_cons, h1, h2]
      rw [foldl_splitStep_some, foldl_splitStep_some]
      simp
    · have h1 : splitStep (none, a) f = (none, a ++ [f]) := by simp [splitStep, h]
      have h2 : splitStep (none, []) f = (none, [f]) := by simp [splitStep, h]
      simp only [splitPrimary, List.foldl_cons, h1, h2]
      rw [ih, ih [f]]
      simp

lemma splitPrimary_cons_pos (f : String) (rest : List String) (h : isStlB f) :
    splitPrimary (f :: rest) = (some f, rest) := by
  simp only [splitPrimary, List.foldl_cons]
  have : splitStep (none, []) f = (some f, []) := by simp [splitStep, h]
  rw [this, foldl_splitStep_some]
  simp

lemma splitPrimary_cons_neg (f : String) (rest : List String) (h : ¬ isStlB f) :
    splitPrimary (f :: rest) = ((splitPrimary rest).1, f :: (splitPrimary rest).2) := by
  simp only [splitPrimary, List.foldl_cons]
  have : splitStep (none, []) f = (none, [f]) := by simp [splitStep, h]
  rw [this, foldl_splitStep_none]
  simp [splitPrimary]

/-- The partition loop picks the first `.stl` file as primary and keeps every
other file, in order, as additional. -/
lemma splitPrimary_eq (l : List String) :
    splitPrimary l = (l.find? isStlB, l.eraseP isStlB) := by
  induction l with
  | nil => simp [splitPrimary]
  | cons f rest ih =>
    by_cases h : isStlB f
    · rw [splitPrimary_cons_pos f rest h, List.find?_cons_of_pos _ h,
        List.eraseP_cons_of_pos h]
    · rw [splitPrimary_cons_neg f rest h, List.find?_cons_of_neg _ (by simpa using h),
        List.eraseP_cons_of_neg (by simpa using h), ih]

/-- The entry built by `generate_model_entry` does not depend on the cache
state: only its side effects do. -/
lemma generate_model_entry_fst (env : Env) (f desc : String)
    (add : Option (List String)) (st st' : St) :
    (generate_model_entry env f desc add st).1
      = (generate_model_entry env f desc add st').1 := rfl

/-- The entry resolved for a definition does not depend on the cache state. -/
lemma processDef_fst (env : Env) (d : Defn) (st : St) :
    (processDef env d st).1 = entryForDef env d := by
  unfold entryForDef processDef
  repeat' split
  all_goals rfl

/-- Writing a fresh or existing cache file makes it readable back. -/
lemma cacheLookup_set_self (c : List (String × CacheEntry)) (k : String)
    (v : CacheEntry) :
    cacheLookup (cacheSet c k v) k = some v := by
  induction c with
  | nil => simp [cacheSet, cacheLookup]
  | cons kv rest ih =>
    by_cases h : kv.1 == k
    · simp [cacheSet, h, cacheLookup]
    · have h0 : (kv.1 == k) = false := by simpa using h
      simp only [cacheSet, h0, Bool.false_eq_true, if_false, cacheLookup,
        List.find?_cons, h0]
      simpa [cacheLookup] using ih

/-- Writing one cache file leaves every other cache file unchanged. -/
lemma cacheLookup_set_ne (c : List (String × CacheEntry)) (k k' : String)
    (v : CacheEntry) (h : ¬ k' = k) :
    cacheLookup (cacheSet c k v) k' = cacheLookup c k' := by
  have hkk' : (k == k') = false := by
    rw [beq_eq_false_iff_ne]
    exact fun hc => h hc.symm
  induction c with
  | nil => simp [cacheSet, cacheLookup, hkk']
  | cons kv rest ih =>
    by_cases hh : kv.1 == k
    · have hx : (kv.1 == k') = false := by
        rw [beq_eq_false_iff_ne, show kv.1 = k by simpa using hh]
        exact fun hc => h hc.symm
      simp [cacheSet, hh, cacheLookup, List.find?_cons, hkk', hx]
    · have h0 : (kv.1 == k) = false := by simpa using hh
      by_cases h2 : kv.1 == k'
      · simp [cacheSet, h0, cacheLookup, List.find?_cons, h2]
      · have h20 : (kv.1 == k') = false := by simpa using h2
        simp only [cacheSet, h0, Bool.false_eq_true, if_false, cacheLookup,
          List.find?_cons, h20]
        simpa [cacheLookup] using ih

/-- The definitions loop appends exactly the entries the definitions resolve
to, in declaration order, whatever the threaded state. -/
lemma foldl_defLoopStep (env : Env) (defs : List Defn) :
    ∀ (ms : List Entry) (st : St),
      (defs.foldl (defLoopStep env) (ms, st)).1
        = ms ++ defs.filterMap (entryForDef env) := by
  induction defs with
  | nil => intro ms st; simp
  | cons d rest ih =>
    intro ms st
    have h1 := processDef_fst env d st
    rcases hpd : processDef env d st with ⟨e?, st'⟩
    rw [hpd] at h1
    cases e? with
    | none =>
      have hstep : defLoopStep env (ms, st) d = (ms, st') := by
        simp [defLoopStep, hpd]
      rw [List.foldl_cons, hstep, ih, List.filterMap_cons, ← h1]
    | some e =>
      have hstep : defLoopStep env (ms, st) d = (ms ++ [e], st') := by
        simp [defLoopStep, hpd]
      rw [List.foldl_cons, hstep, ih, List.filterMap_cons, ← h1]
      simp

/-- The auto-discovery loop appends exactly the entries of the non-specified
discovered files, in list order, whatever the threaded state. -/
lemma foldl_discLoopStep (env : Env) (defs : List Defn) (spec : List String)
    (files : List String) :
    ∀ (ms : List Entry) (st : St),
      (files.foldl (discLoopStep env defs spec) (ms, st)).1
        = ms ++ (files.filter (fun f => !(spec.contains (fileName f)))).map
            (autoEntry env defs) := by
  induction files with
  | nil => intro ms st; simp
  | cons f rest ih =>
    intro ms st
    by_cases h : spec.contains (fileName f)
    · have hstep : discLoopStep env defs spec (ms, st) f = (ms, st) := by
        unfold discLoopStep
        rw [h]
        rfl
      rw [List.foldl_cons, hstep, ih, List.filter_cons]
      rw [show (!spec.contains (fileName f)) = false by rw [h]; rfl]
      rfl
    · have h0 : (spec.contains (fileName f)) = false := by simpa using h
      have hstep : discLoopStep env defs spec (ms, st) f
          = (ms ++ [(generate_model_entry env f (autoDescription defs f) none st).1],
             (generate_model_entry env f (autoDescription defs f) none st).2) := by
        unfold discLoopStep
        rw [h0]
        rfl
      rw [List.foldl_cons, hstep, ih,
        generate_model_entry_fst env f (autoDescription defs f) none st ⟨[], []⟩,
        List.filter_cons]
      rw [show (!spec.contains (fileName f)) = true by rw [h0]; rfl]
      simp [autoEntry]

lemma foldl_specStep (defs : List Defn) :
    ∀ a : List String, defs.foldl specStep a = a ++ collectSpecified defs := by
  induction defs with
  | nil => intro a; simp [collectSpecified]
  | cons d rest ih =>
    intro a
    simp only [collectSpecified, List.foldl_cons]
    rw [ih (specStep a d), ih (specStep [] d)]
    cases hf : d.files with
    | none => simp [specStep, hf]
    | some fls => simp [specStep, hf]

/-- Every basename of every file of every definition carrying a `files` list
is in the `specified_files` set. -/
lemma mem_collectSpecified (defs : List Defn) (d : Defn) (fls : List String)
    (f : String) (hd : d ∈ defs) (hf : d.files = some fls) (hmem : f ∈ fls) :
    fileName f ∈ collectSpecified defs := by
  induction defs with
  | nil => cases hd
  | cons d0 rest ih =>
    simp only [collectSpecified, List.foldl_cons]
    rw [foldl_specStep]
    rcases List.mem_cons.mp hd with h | h
    · subst h
      apply List.mem_append_left
      simp only [specStep, hf, List.nil_append]
      exact List.mem_map_of_mem fileName hmem
    · exact List.mem_append_right _ (ih h)

lemma charListLeB_total (x : List Char) :
    ∀ y : List Char, charListLeB x y = true ∨ charListLeB y x = true := by
  induction x with
  | nil => intro y; left; rfl
  | cons a as ih =>
    intro y
    cases y with
    | nil => right; rfl
    | cons b bs =>
      by_cases h1 : a.toNat < b.toNat
      · left; simp [charListLeB, h1]
      · by_cases h2 : b.toNat < a.toNat
        · right; simp [charListLeB, h2]
        · rcases ih bs with h | h
          · left; simp [charListLeB, h1, h2, h]
          · right; simp [charListLeB, h1, h2, h]

lemma charListLeB_trans (x : List Char) :
    ∀ y z : List Char, charListLeB x y = true → charListLeB y z = true →
      charListLeB x z = true := by
  induction x with
  | nil => intro y z _ _; rfl
  | cons a as ih =>
    intro y z hxy hyz
    cases y with
    | nil => simp [charListLeB] at hxy
    | cons b bs =>
      cases z with
      | nil => simp [charListLeB] at hyz
      | cons c cs =>
        by_cases hab : a.toNat < b.toNat
        · by_cases hbc : b.toNat < c.toNat
          · simp [charListLeB, show a.toNat < c.toNat by omega]
          · by_cases hcb : c.toNat < b.toNat
            · simp [charListLeB, hbc, hcb] at hyz
            · simp [charListLeB, show a.toNat < c.toNat by omega]
        · by_cases hba : b.toNat < a.toNat
          · simp [charListLeB, hab, hba] at hxy
          · by_cases hbc : b.toNat < c.toNat
            · simp [charListLeB, show a.toNat < c.toNat by omega]
            · by_cases hcb : c.toNat < b.toNat
              · simp [charListLeB, hbc, hcb] at hyz
              · have hac1 : ¬ a.toNat < c.toNat := by omega
                have hac2 : ¬ c.toNat < a.toNat := by omega
                simp only [charListLeB, hab, hba, if_false] at hxy
                simp only [charListLeB, hbc, hcb, if_false] at hyz
                simp only [charListLeB, hac1, hac2, if_false]
                exact ih bs cs hxy hyz

lemma strLeB_total (a b : String) : strLeB a b = true ∨ strLeB b a = true :=
  charListLeB_total a.toList b.toList

lemma strLeB_trans (a b c : String) (h1 : strLeB a b = true)
    (h2 : strLeB b c = true) : strLeB a c = true :=
  charListLeB_trans a.toList b.toList c.toList h1 h2

lemma mem_insertLe (x y : String) (l : List String)
    (h : y ∈ insertLe x l) : y = x ∨ y ∈ l := by
  induction l with
  | nil =>
    simp [insertLe] at h
    left; exact h
  | cons z zs ih =>
    by_cases hc : strLeB x z
    · simp only [insertLe, hc, if_pos] at h
      rcases List.mem_cons.mp h with h' | h'
      · left; exact h'
      · right; exact h'
    · simp only [insertLe, hc, Bool.false_eq_true, if_false] at h
      rcases List.mem_cons.mp h with h' | h'
      · right; exact h' ▸ List.mem_cons_self z zs
      · rcases ih h' with h2 | h2
        · left; exact h2
        · right; exact List.mem_cons_of_mem z h2

lemma pairwise_insertLe (x : String) (l : List String)
    (hl : l.Pairwise (fun a b => strLeB a b = true)) :
    (insertLe x l).Pairwise (fun a b => strLeB a b = true) := by
  induction l with
  | nil => simp [insertLe]
  | cons z zs ih =>
    rcases List.pairwise_cons.mp hl with ⟨hz, hzs⟩
    by_cases hc : strLeB x z
    · simp only [insertLe, hc, if_pos]
      refine List.pairwise_cons.mpr ⟨?_, hl⟩
      intro y hy
      rcases List.mem_cons.mp hy with rfl | hy'
      · exact hc
      · exact strLeB_trans x z y hc (hz y hy')
    · simp only [insertLe, hc, Bool.false_eq_true, if_false]
      refine List.pairwise_cons.mpr ⟨?_, ih hzs⟩
      intro y hy
      rcases mem_insertLe x y zs hy with h1 | h1
      · rw [h1]
        rcases strLeB_total x z with h | h
        · exact absurd h hc
        · exact h
      · exact hz y h1

/-- `pySorted` returns a lexicographically sorted list. -/
lemma pySorted_pairwise (l : List String) :
    (pySorted l).Pairwise (fun a b => strLeB a b = true) := by
  induction l with
  | nil => simp [pySorted]
  | cons x xs ih => exact pairwise_insertLe x (pySorted xs) ih

lemma dedupe_sublist (l : List String) :
    ∀ seen : List String, List.Sublist (dedupe seen l) l := by
  induction l with
  | nil => intro seen; simp [dedupe]
  | cons f rest ih =>
    intro seen
    by_cases h : seen.contains f
    · simp only [dedupe, h, if_pos]
      exact (ih seen).cons f
    · simp only [dedupe, h, Bool.false_eq_true, if_false]
      exact (ih (f :: seen)).cons₂ f

lemma pairwise_ite_filter (c : Prop) [Decidable c] (p : String → Bool)
    (l : List String) (h : l.Pairwise (fun a b => strLeB a b = true)) :
    (if c then l.filter p else l).Pairwise (fun a b => strLeB a b = true) := by
  split
  · exact h.sublist (List.filter_sublist l)
  · exact h

/-- Discovery output is lexicographically sorted by path. -/
lemma find_stl_files_pairwise (env : Env) (directory : String)
    (recursive : Bool) (includeL exclude : Option (List String)) :
    (find_stl_files env directory recursive includeL exclude).Pairwise
      (fun a b => strLeB a b = true) := by
  unfold find_stl_files
  apply pairwise_ite_filter
  apply pairwise_ite_filter
  exact List.Pairwise.sublist (dedupe_sublist _ _) (pySorted_pairwise _)


/-- The local `exclude_files` list ends as the passed list followed by all
specified basenames. -/
lemma page_exclude_final_eq (env : Env) (directory title description : String)
    (defs : List Defn) (ex : Option (List String)) (st : St) :
    (generate_catalog_page env directory title description defs ex st).exclude_final
      = ex.getD [] ++ collectSpecified defs := rfl

/-- The models list of a page run is the explicit-definition entries, in
declaration order, followed by the auto-discovered entries. -/
lemma page_models_eq (env : Env) (directory title description : String)
    (defs : List Defn) (ex : Option (List String)) (st : St) :
    (generate_catalog_page env directory title description defs ex st).models
      = defs.filterMap (entryForDef env)
        ++ (discoveredFiles env directory defs ex).map (autoEntry env defs) := by
  have h1 : (defs.foldl (defLoopStep env) (([] : List Entry), st)).1
      = defs.filterMap (entryForDef env) := by
    rw [foldl_defLoopStep]
    simp
  show (List.foldl (discLoopStep env defs (collectSpecified defs))
      (defs.foldl (defLoopStep env) ([], st))
      (find_stl_files env directory true none
        (some (ex.getD [] ++ collectSpecified defs)))).1
    = defs.filterMap (entryForDef env)
      ++ (discoveredFiles env directory defs ex).map (autoEntry env defs)
  rcases hpair : defs.foldl (defLoopStep env) (([] : List Entry), st) with ⟨ms1, st1⟩
  rw [hpair] at h1
  dsimp only at h1
  rw [foldl_discLoopStep, h1]
  rfl


/-- The `additional_files if additional_files else None` idiom round-trips to
the additional list itself. -/
lemma ite_isEmpty_getD (l : List String) :
    ((if l.isEmpty then none else some l).getD ([] : List String)) = l := by
  cases l with
  | nil => rfl
  | cons a t => rfl

/-- What `generate_model_entry` does to the render log: nothing when the
stem-keyed cache image already exists, one Render-Bridge invocation of the
primary file otherwise. -/
lemma generate_model_entry_renders (env : Env) (f desc : String)
    (add : Option (List String)) (st : St) :
    ((generate_model_entry env f desc add st).2).renders
      = st.renders
        ++ (if cacheHas st.cache (stemOf f ++ ".png") then [] else [f]) := by
  unfold generate_model_entry render_stl
  by_cases h : cacheHas st.cache (stemOf f ++ ".png")
  · simp [h]
  · have h0 : cacheHas st.cache (stemOf f ++ ".png") = false := by simpa using h
    cases hro : env.renderOk f <;> simp [h0, hro]

/-- `generate_model_entry` never changes an existing cache file: a render is
attempted only when the stem-keyed file is absent, and a successful render
creates exactly that absent file. -/
lemma generate_model_entry_cache_preserved (env : Env) (f desc : String)
    (add : Option (List String)) (st : St) (k : String) (v : CacheEntry)
    (h : cacheLookup st.cache k = some v) :
    cacheLookup ((generate_model_entry env f desc add st).2).cache k = some v := by
  unfold generate_model_entry render_stl
  by_cases hch : cacheHas st.cache (stemOf f ++ ".png")
  · simp [hch, h]
  · have h0 : cacheHas st.cache (stemOf f ++ ".png") = false := by simpa using hch
    have hk : ¬ k = stemOf f ++ ".png" := by
      intro he
      rw [he] at h
      unfold cacheHas at h0
      rw [h] at h0
      simp at h0
    cases hro : env.renderOk f
    · simp [h0, hro, h]
    · simp only [h0, Bool.false_eq_true, if_false, hro, if_true]
      rw [cacheLookup_set_ne st.cache (stemOf f ++ ".png") k (.rendered f) hk]
      exact h

/-! ## Claim theorems -/

/-- C9: for every directory and every exclusion set of bare filenames,
discovery never returns a path whose filename is in the set; the embedding is
a total function, so no error is raised when an excluded name matches no
discovered file. -/
theorem C9_discovery_respects_exclusions (env : Env) (directory : String)
    (recursive : Bool) (includeL : Option (List String))
    (exclude : List String) (p : String)
    (hp : p ∈ find_stl_files env directory recursive includeL (some exclude)) :
    fileName p ∉ exclude := by
  intro hmem
  unfold find_stl_files at hp
  by_cases hex : exclude.isEmpty
  · rw [List.isEmpty_iff] at hex
    rw [hex] at hmem
    cases hmem
  · have hex' : exclude.isEmpty = false := by simpa using hex
    have hcond : (!((some exclude : Option (List String)).getD []).isEmpty) = true := by
      simp [hex']
    rw [hcond] at hp
    have key : ∀ l : List String,
        p ∈ l.filter
          (fun f => !(((some exclude : Option (List String)).getD []).contains
            (fileName f))) →
        False := by
      intro l hl
      have h2 := (List.mem_filter.mp hl).2
      simp at h2
      exact h2 hmem
    exact key _ hp

theorem C9_discovery_respects_exclusions_witness :
    "T/b.stl" ∈ find_stl_files sampleEnv "T" true none (some ["a.stl"])
    ∧ fileName "T/b.stl" ∉ ["a.stl"] :=
  ⟨by decide,
   C9_discovery_respects_exclusions sampleEnv "T" true none ["a.stl"] "T/b.stl"
     (by decide)⟩

/-- C6: every basename named in any definition's `files` list is in the
exclusion list used for auto-discovery; the models list splits into the
explicit entries followed by the auto-discovered entries; and no
auto-discovered file shares a filename with any file of any definition's
`files` list, so no such file produces a separate auto-discovered entry. -/
theorem C6_specified_files_reserved (env : Env)
    (directory title description : String) (defs : List Defn)
    (ex : Option (List String)) (st : St) :
    (∀ d ∈ defs, ∀ fls, d.files = some fls → ∀ f ∈ fls,
        fileName f ∈ (generate_catalog_page env directory title description
          defs ex st).exclude_final)
    ∧ (generate_catalog_page env directory title description defs ex st).models
        = defs.filterMap (entryForDef env)
          ++ (discoveredFiles env directory defs ex).map (autoEntry env defs)
    ∧ (∀ g ∈ discoveredFiles env directory defs ex, ∀ d ∈ defs, ∀ fls,
        d.files = some fls → ∀ f ∈ fls, fileName g ≠ fileName f) := by
  refine ⟨?_, page_models_eq env directory title description defs ex st, ?_⟩
  · intro d hd fls hf f hfm
    rw [page_exclude_final_eq]
    exact List.mem_append_right _ (mem_collectSpecified defs d fls f hd hf hfm)
  · intro g hg d hd fls hf f hfm heq
    unfold discoveredFiles at hg
    have hpred := (List.mem_filter.mp hg).2
    have hmem := mem_collectSpecified defs d fls f hd hf hfm
    rw [← heq] at hmem
    simp at hpred
    exact hpred hmem

theorem C6_specified_files_reserved_witness :
    fileName "T/a.stl"
      ∈ (generate_catalog_page sampleEnv "T" "t" "d" sampleDefs none
          ⟨[], []⟩).exclude_final
    ∧ "T/b.stl" ∈ discoveredFiles sampleEnv "T" sampleDefs none
    ∧ fileName "T/b.stl" ≠ fileName "T/a.stl" := by
  refine ⟨?_, by decide, ?_⟩
  · exact (C6_specified_files_reserved sampleEnv "T" "t" "d" sampleDefs none
      ⟨[], []⟩).1 ⟨"A", "da", some ["T/a.stl"], none⟩ (by decide)
      ["T/a.stl"] rfl "T/a.stl" (by decide)
  · exact (C6_specified_files_reserved sampleEnv "T" "t" "d" sampleDefs none
      ⟨[], []⟩).2.2 "T/b.stl" (by decide) ⟨"A", "da", some ["T/a.stl"], none⟩
      (by decide) ["T/a.stl"] rfl "T/a.stl" (by decide)

/-- C8: the entry sequence of a generated page is the explicit-definition
entries in declaration order (definitions whose primary is absent contribute
`none` to the `filterMap`), followed by the auto-discovered entries, whose
file list is lexicographically sorted by path. -/
theorem C8_entry_order (env : Env) (directory title description : String)
    (defs : List Defn) (ex : Option (List String)) (st : St) :
    (generate_catalog_page env directory title description defs ex st).models
      = defs.filterMap (entryForDef env)
        ++ (discoveredFiles env directory defs ex).map (autoEntry env defs)
    ∧ (discoveredFiles env directory defs ex).Pairwise
        (fun a b => strLeB a b = true) := by
  refine ⟨page_models_eq env directory title description defs ex st, ?_⟩
  unfold discoveredFiles
  exact List.Pairwise.sublist (List.filter_sublist _)
    (find_stl_files_pairwise env directory true none _)

/-- C10: when a non-empty `exclude_files` list is passed,
`generate_catalog_page` appends the basenames of every definition's `files`
entries to that same list object, so after the call the caller's list is the
original list followed by those basenames and contains each of them. -/
theorem C10_exclude_list_mutated (env : Env)
    (directory title description : String) (defs : List Defn)
    (init : List String) (st : St) (h : init ≠ []) :
    exclude_files_after_call env directory title description defs init st
      = init ++ collectSpecified defs
    ∧ ∀ d ∈ defs, ∀ fls, d.files = some fls → ∀ f ∈ fls,
        fileName f ∈ exclude_files_after_call env directory title description
          defs init st := by
  have hne : init.isEmpty = false := by
    cases init with
    | nil => exact absurd rfl h
    | cons a l => rfl
  have heq : exclude_files_after_call env directory title description defs init st
      = init ++ collectSpecified defs := by
    unfold exclude_files_after_call
    rw [hne, page_exclude_final_eq]
    rfl
  refine ⟨heq, ?_⟩
  intro d hd fls hf f hfm
  rw [heq]
  exact List.mem_append_right _ (mem_collectSpecified defs d fls f hd hf hfm)

theorem C10_exclude_list_mutated_witness :
    (["x.stl"] : List String) ≠ []
    ∧ exclude_files_after_call sampleEnv "T" "t" "d" sampleDefs ["x.stl"] ⟨[], []⟩
        = ["x.stl"] ++ collectSpecified sampleDefs
    ∧ fileName "T/a.stl"
        ∈ exclude_files_after_call sampleEnv "T" "t" "d" sampleDefs ["x.stl"]
            ⟨[], []⟩ := by
  have h := C10_exclude_list_mutated sampleEnv "T" "t" "d" sampleDefs ["x.stl"]
    ⟨[], []⟩ (by decide)
  exact ⟨by decide, h.1,
    h.2 ⟨"A", "da", some ["T/a.stl"], none⟩ (by decide) ["T/a.stl"] rfl
      "T/a.stl" (by decide)⟩


/-- C1 counterexample: a concrete run in which a definition's custom image
exists on disk and the resolved entry's image points at the copied cache
path, and yet the Render Bridge is invoked for that entry (the primary is
rendered before the custom image is copied). -/
theorem C1_counterexample :
    ((generate_catalog_page
        ⟨["M/a.stl", "M/c.png"], fun _ => "2024-01-01", fun _ => true, "B"⟩
        "M" "T" "" [⟨"X", "d", some ["M/a.stl"], some "M/c.png"⟩] none
        ⟨[], []⟩).st).renders = ["M/a.stl"]
    ∧ ((generate_catalog_page
        ⟨["M/a.stl", "M/c.png"], fun _ => "2024-01-01", fun _ => true, "B"⟩
        "M" "T" "" [⟨"X", "d", some ["M/a.stl"], some "M/c.png"⟩] none
        ⟨[], []⟩).models).map (fun e => e.image)
      = ["/_static/rendered/X.png"] := by decide

/-- C1 amended: for a definition with an existing custom image, the resolved
entry's image reference does point at the copied cache path and the cache
file holds the copy, but the Render Bridge is still invoked for that entry
whenever the stem-keyed preview is absent from the cache: rendering happens
before the override, and the copy then supplies the referenced image. -/
theorem C1_custom_image_copied_but_rendered (env : Env) (d : Defn) (st : St)
    (fls : List String) (primary img : String)
    (hf : d.files = some fls) (hp : (splitPrimary fls).1 = some primary)
    (hex : fileExists env primary = true) (hi : d.image = some img)
    (hiex : fileExists env img = true) :
    ∃ e st', processDef env d st = (some e, st')
      ∧ e.image = "/_static/rendered/" ++ (d.id ++ ".png")
      ∧ cacheLookup st'.cache (d.id ++ ".png") = some (.copiedFrom img)
      ∧ st'.renders = st.renders
          ++ (if cacheHas st.cache (stemOf primary ++ ".png") then []
              else [primary]) := by
  unfold processDef
  simp only [hf, hp, hi]
  rw [if_pos hex, if_pos hiex]
  refine ⟨_, _, rfl, rfl, cacheLookup_set_self _ _ _, ?_⟩
  exact generate_model_entry_renders env primary d.description _ st

theorem C1_custom_image_copied_but_rendered_witness :
    ∃ e st', processDef ⟨["M/a.stl", "M/c.png"], fun _ => "x", fun _ => true, "B"⟩
        ⟨"X", "d", some ["M/a.stl"], some "M/c.png"⟩ ⟨[], []⟩ = (some e, st')
      ∧ e.image = "/_static/rendered/" ++ ("X" ++ ".png")
      ∧ cacheLookup st'.cache ("X" ++ ".png") = some (.copiedFrom "M/c.png")
      ∧ st'.renders = (⟨[], []⟩ : St).renders
          ++ (if cacheHas (⟨[], []⟩ : St).cache (stemOf "M/a.stl" ++ ".png")
              then [] else ["M/a.stl"]) :=
  C1_custom_image_copied_but_rendered
    ⟨["M/a.stl", "M/c.png"], fun _ => "x", fun _ => true, "B"⟩
    ⟨"X", "d", some ["M/a.stl"], some "M/c.png"⟩ ⟨[], []⟩
    ["M/a.stl"] "M/a.stl" "M/c.png" rfl (by decide) (by decide) rfl (by decide)

/-- C3 counterexample: a run over a cache that already holds `X.png`
replaces that file's content with the custom-image copy, so the cache is not
append-only. -/
theorem C3_counterexample :
    cacheLookup [("X.png", CacheEntry.rendered "old.stl")] "X.png"
        = some (.rendered "old.stl")
    ∧ cacheLookup
        ((generate_catalog_page
            ⟨["M/a.stl", "M/c.png"], fun _ => "2024-01-01", fun _ => true, "B"⟩
            "M" "T" "" [⟨"X", "d", some ["M/a.stl"], some "M/c.png"⟩] none
            ⟨[("X.png", CacheEntry.rendered "old.stl")], []⟩).st).cache "X.png"
        = some (.copiedFrom "M/c.png") := by decide

/-- C3 amended: the render path is append-only — `generate_model_entry`
never changes an existing cache file, rendering being skipped when the stem
image is present — but the custom-image copy of a definition whose custom
image exists writes `<id>.png` unconditionally, replacing any existing cache
file of that name. -/
theorem C3_render_append_only_copy_overwrites :
    (∀ (env : Env) (f desc : String) (add : Option (List String)) (st : St)
        (k : String) (v : CacheEntry), cacheLookup st.cache k = some v →
        cacheLookup ((generate_model_entry env f desc add st).2).cache k
          = some v)
    ∧ (∀ (env : Env) (d : Defn) (st : St) (fls : List String)
        (primary img : String),
        d.files = some fls → (splitPrimary fls).1 = some primary →
        fileExists env primary = true → d.image = some img →
        fileExists env img = true →
        cacheLookup ((processDef env d st).2).cache (d.id ++ ".png")
          = some (.copiedFrom img)) := by
  constructor
  · exact generate_model_entry_cache_preserved
  · intro env d st fls primary img hf hp hex hi hiex
    unfold processDef
    simp only [hf, hp, hi]
    rw [if_pos hex, if_pos hiex]
    exact cacheLookup_set_self _ _ _

theorem C3_render_append_only_copy_overwrites_witness :
    cacheLookup ((generate_model_entry sampleEnv "T/a.stl" "d" none
        ⟨[("keep.png", CacheEntry.rendered "o.stl")], []⟩).2).cache "keep.png"
      = some (.rendered "o.stl")
    ∧ cacheLookup ((processDef
        ⟨["M/a.stl", "M/c.png"], fun _ => "x", fun _ => true, "B"⟩
        ⟨"X", "d", some ["M/a.stl"], some "M/c.png"⟩
        ⟨[("X.png", CacheEntry.rendered "stale.stl")], []⟩).2).cache "X.png"
      = some (.copiedFrom "M/c.png") :=
  ⟨C3_render_append_only_copy_overwrites.1 sampleEnv "T/a.stl" "d" none
      ⟨[("keep.png", CacheEntry.rendered "o.stl")], []⟩ "keep.png"
      (CacheEntry.rendered "o.stl") (by decide),
   C3_render_append_only_copy_overwrites.2
      ⟨["M/a.stl", "M/c.png"], fun _ => "x", fun _ => true, "B"⟩
      ⟨"X", "d", some ["M/a.stl"], some "M/c.png"⟩
      ⟨[("X.png", CacheEntry.rendered "stale.stl")], []⟩
      ["M/a.stl"] "M/a.stl" "M/c.png" rfl (by decide) (by decide) rfl (by decide)⟩

/-- C4 counterexample: the definition declares id `fCal-2.1` over primary
`F/fCal_2.1.stl` with no custom image; the entry keeps the declared id but
is referenced as `fCal_2.1.png` — the stem — and no `fCal-2.1.png` cache
file is produced. -/
theorem C4_counterexample :
    ((processDef ⟨["F/fCal_2.1.stl"], fun _ => "x", fun _ => true, "B"⟩
        ⟨"fCal-2.1", "d", some ["F/fCal_2.1.stl"], none⟩ ⟨[], []⟩).1).map
        (fun e => (e.id, e.image))
      = some ("fCal-2.1", "/_static/rendered/fCal_2.1.png")
    ∧ ("/_static/rendered/fCal_2.1.png" : String)
        ≠ "/_static/rendered/" ++ "fCal-2.1" ++ ".png"
    ∧ cacheHas ((processDef ⟨["F/fCal_2.1.stl"], fun _ => "x", fun _ => true, "B"⟩
        ⟨"fCal-2.1", "d", some ["F/fCal_2.1.stl"], none⟩ ⟨[], []⟩).2).cache
        "fCal-2.1.png" = false := by decide

/-- C4 amended: an emitted entry's preview image is keyed by the primary
file's stem; it is `<declared id>.png` exactly when the definition carries a
custom image that exists on disk (the copy re-keys it to the id), and only
coincides with the declared id otherwise when the id equals the stem. -/
theorem C4_image_keyed_by_stem (env : Env) (d : Defn) (st : St)
    (fls : List String) (primary : String)
    (hf : d.files = some fls) (hp : (splitPrimary fls).1 = some primary)
    (hex : fileExists env primary = true) :
    ∃ e st', processDef env d st = (some e, st')
      ∧ e.id = d.id
      ∧ e.image = (if customImageUsed env d
          then "/_static/rendered/" ++ (d.id ++ ".png")
          else "/_static/rendered/" ++ (stemOf primary ++ ".png")) := by
  unfold processDef
  simp only [hf, hp]
  rw [if_pos hex]
  cases hi : d.image with
  | none =>
    have hcu : customImageUsed env d = false := by
      simp [customImageUsed, hi]
    refine ⟨_, _, rfl, rfl, ?_⟩
    rw [hcu]
    rfl
  | some img =>
    cases hiex : fileExists env img with
    | false =>
      have hcu : customImageUsed env d = false := by
        simp [customImageUsed, hi, hiex]
      dsimp only
      rw [if_neg (show ¬ fileExists env img = true by simp [hiex])]
      refine ⟨_, _, rfl, rfl, ?_⟩
      rw [hcu]
      rfl
    | true =>
      have hcu : customImageUsed env d = true := by
        simp [customImageUsed, hi, hiex]
      dsimp only
      rw [if_pos hiex]
      refine ⟨_, _, rfl, rfl, ?_⟩
      rw [hcu]
      rfl

theorem C4_image_keyed_by_stem_witness :
    ∃ e st', processDef ⟨["F/fCal_2.1.stl"], fun _ => "x", fun _ => true, "B"⟩
        ⟨"fCal-2.1", "d", some ["F/fCal_2.1.stl"], none⟩ ⟨[], []⟩ = (some e, st')
      ∧ e.id = "fCal-2.1"
      ∧ e.image = (if customImageUsed
            ⟨["F/fCal_2.1.stl"], fun _ => "x", fun _ => true, "B"⟩
            ⟨"fCal-2.1", "d", some ["F/fCal_2.1.stl"], none⟩
          then "/_static/rendered/" ++ ("fCal-2.1" ++ ".png")
          else "/_static/rendered/" ++ (stemOf "F/fCal_2.1.stl" ++ ".png")) :=
  C4_image_keyed_by_stem ⟨["F/fCal_2.1.stl"], fun _ => "x", fun _ => true, "B"⟩
    ⟨"fCal-2.1", "d", some ["F/fCal_2.1.stl"], none⟩ ⟨[], []⟩
    ["F/fCal_2.1.stl"] "F/fCal_2.1.stl" rfl (by decide) (by decide)

/-- C7: for a definition with an explicit `files` list, the primary is the
first listed file whose lowercased extension is `.stl`; every other listed
file — including non-`.stl` auxiliaries — is an additional download in
original list order (`eraseP` removes exactly the first `.stl` file); and
the produced entry's downloads are the primary followed by those files. -/
theorem C7_primary_first_stl_rest_additional (env : Env) (d : Defn) (st : St)
    (fls : List String) (primary : String)
    (hf : d.files = some fls) (hfind : fls.find? isStlB = some primary)
    (hex : fileExists env primary = true) :
    splitPrimary fls = (some primary, fls.eraseP isStlB)
    ∧ ∃ e, (processDef env d st).1 = some e
        ∧ e.downloads = (primary :: fls.eraseP isStlB).map (mkDownload env) := by
  have hsp : splitPrimary fls = (some primary, fls.eraseP isStlB) := by
    rw [splitPrimary_eq, hfind]
  refine ⟨hsp, ?_⟩
  unfold processDef
  simp only [hf, hsp]
  rw [if_pos hex]
  cases hi : d.image with
  | none =>
    refine ⟨_, rfl, ?_⟩
    show (primary :: ((if (fls.eraseP isStlB).isEmpty then none
        else some (fls.eraseP isStlB)).getD [])).map (mkDownload env)
      = (primary :: fls.eraseP isStlB).map (mkDownload env)
    rw [ite_isEmpty_getD]
  | some img =>
    cases hiex : fileExists env img with
    | false =>
      dsimp only
      rw [if_neg (show ¬ fileExists env img = true by simp [hiex])]
      refine ⟨_, rfl, ?_⟩
      show (primary :: ((if (fls.eraseP isStlB).isEmpty then none
          else some (fls.eraseP isStlB)).getD [])).map (mkDownload env)
        = (primary :: fls.eraseP isStlB).map (mkDownload env)
      rw [ite_isEmpty_getD]
    | true =>
      dsimp only
      rw [if_pos hiex]
      refine ⟨_, rfl, ?_⟩
      show (primary :: ((if (fls.eraseP isStlB).isEmpty then none
          else some (fls.eraseP isStlB)).getD [])).map (mkDownload env)
        = (primary :: fls.eraseP isStlB).map (mkDownload env)
      rw [ite_isEmpty_getD]

theorem C7_primary_first_stl_rest_additional_witness :
    splitPrimary ["T2/a.stl", "T2/b.stl", "T2/c.rom"]
        = (some "T2/a.stl", ["T2/a.stl", "T2/b.stl", "T2/c.rom"].eraseP isStlB)
    ∧ (∃ e, (processDef ⟨["T2/a.stl"], fun _ => "x", fun _ => true, "B"⟩
          ⟨"G", "d", some ["T2/a.stl", "T2/b.stl", "T2/c.rom"], none⟩
          ⟨[], []⟩).1 = some e
        ∧ e.downloads
            = ("T2/a.stl" :: ["T2/a.stl", "T2/b.stl", "T2/c.rom"].eraseP isStlB).map
                (mkDownload ⟨["T2/a.stl"], fun _ => "x", fun _ => true, "B"⟩))
    ∧ ["T2/a.stl", "T2/b.stl", "T2/c.rom"].eraseP isStlB
        = ["T2/b.stl", "T2/c.rom"] :=
  ⟨(C7_primary_first_stl_rest_additional
      ⟨["T2/a.stl"], fun _ => "x", fun _ => true, "B"⟩
      ⟨"G", "d", some ["T2/a.stl", "T2/b.stl", "T2/c.rom"], none⟩ ⟨[], []⟩
      ["T2/a.stl", "T2/b.stl", "T2/c.rom"] "T2/a.stl" rfl (by decide)
      (by decide)).1,
   (C7_primary_first_stl_rest_additional
      ⟨["T2/a.stl"], fun _ => "x", fun _ => true, "B"⟩
      ⟨"G", "d", some ["T2/a.stl", "T2/b.stl", "T2/c.rom"], none⟩ ⟨[], []⟩
      ["T2/a.stl", "T2/b.stl", "T2/c.rom"] "T2/a.stl" rfl (by decide)
      (by decide)).2,
   by decide⟩


set_option maxRecDepth 8192 in
/-- C2 counterexample: a download whose `last_modified` is the sentinel
`"Unknown"` is emitted **with** the suffix `*(Modified: Unknown)*` — the
emitter tests truthiness (non-emptiness), not the sentinel, and `"Unknown"`
is non-empty. -/
theorem C2_counterexample :
    generate_table_markdown [⟨"m", "", "/x.png", [⟨"f", "u", "Unknown"⟩], "s"⟩]
        "T" ""
      = "# T\n\n## Models\n\n### m\n\n::::\x7bgrid\x7d 1 1 2 2\n:gutter: 3\n\n:::\x7bgrid-item\x7d\n![m](/x.png)\n:::\n\n:::\x7bgrid-item\x7d\n**Downloads:**\n\n- [f](u) "
        ++ "*(Modified: Unknown)*"
        ++ "\n\n[View source files on GitHub](s)\n:::\n\n::::\n\n" := by decide

/-- C2 amended: the markdown emitter appends the `(Modified: …)` suffix to a
download line exactly when that download's `last_modified` is a non-empty
string; the sentinel `"Unknown"` is non-empty, so unknown dates are emitted
as `(Modified: Unknown)` rather than suppressed. -/
theorem C2_modified_suffix_iff_nonempty (dls : List Download) :
    downloadsSection dls
      = strConcat (dls.map (fun dl =>
          "- [" ++ dl.filename ++ "](" ++ dl.url ++ ") "
          ++ (if dl.last_modified = "" then ""
              else "*(Modified: " ++ dl.last_modified ++ ")*")
          ++ "\n")) := by
  have hline : ∀ dl : Download,
      downloadLine dl
        = "- [" ++ dl.filename ++ "](" ++ dl.url ++ ") "
          ++ (if dl.last_modified = "" then ""
              else "*(Modified: " ++ dl.last_modified ++ ")*")
          ++ "\n" := by
    intro dl
    unfold downloadLine
    by_cases h : dl.last_modified = ""
    · rw [if_neg (fun hc => hc h), if_pos h]
    · rw [if_pos h, if_neg h]
  have hfold : ∀ (l : List Download) (md0 : String),
      l.foldl (fun md dl => md ++ downloadLine dl) md0
        = md0 ++ strConcat (l.map downloadLine) := by
    intro l
    induction l with
    | nil =>
      intro md0
      show md0 = md0 ++ ""
      rw [String.append_empty]
    | cons dl rest ih =>
      intro md0
      rw [List.foldl_cons, ih, List.map_cons]
      show md0 ++ downloadLine dl ++ strConcat (List.map downloadLine rest)
        = md0 ++ (downloadLine dl ++ strConcat (List.map downloadLine rest))
      rw [String.append_assoc]
  unfold downloadsSection
  rw [hfold, funext hline]
  rfl

set_option maxRecDepth 8192 in
/-- C5: with two equal entries the emitter omits the separator entirely —
`model != models[-1]` compares by value, so the non-final copy already equals
the final list element — contradicting the in-code comment "Only add
separator if not the last model"; with distinct entries the position-based
grammar is produced. -/
theorem C5_duplicate_entry_drops_separator :
    generate_table_markdown
        [⟨"m", "", "/i.png", [], "s"⟩, ⟨"m", "", "/i.png", [], "s"⟩] "T" ""
      ≠ table_markdown_separator_spec
        [⟨"m", "", "/i.png", [], "s"⟩, ⟨"m", "", "/i.png", [], "s"⟩] "T" ""
    ∧ generate_table_markdown
        [⟨"m", "", "/i.png", [], "s"⟩, ⟨"m", "", "/i.png", [], "s"⟩] "T" ""
      = "# T\n\n## Models\n\n"
        ++ "### m\n\n::::\x7bgrid\x7d 1 1 2 2\n:gutter: 3\n\n:::\x7bgrid-item\x7d\n![m](/i.png)\n:::\n\n:::\x7bgrid-item\x7d\n**Downloads:**\n\n\n[View source files on GitHub](s)\n:::\n\n::::\n\n"
        ++ "### m\n\n::::\x7bgrid\x7d 1 1 2 2\n:gutter: 3\n\n:::\x7bgrid-item\x7d\n![m](/i.png)\n:::\n\n:::\x7bgrid-item\x7d\n**Downloads:**\n\n\n[View source files on GitHub](s)\n:::\n\n::::\n\n"
    ∧ generate_table_markdown
        [⟨"a", "", "/i.png", [], "s"⟩, ⟨"b", "", "/i.png", [], "s"⟩] "T" ""
      = table_markdown_separator_spec
        [⟨"a", "", "/i.png", [], "s"⟩, ⟨"b", "", "/i.png", [], "s"⟩] "T" "" := by
  refine ⟨by decide, by decide, by decide⟩


end Catalog
